import Mathlib

/-!
Shallow embedding of the key-based join operators of
src/torchdata/datapipes/iter/util/combining.py:

* IterKeyZipperIterDataPipe (functional name zip_with_iter): the streaming
  key-zipper join.  Its generator body (lines 80-110 of the source) is
  embedded as the recursive functions pullUntil (the inner while-loop that
  pulls reference items into the ordered buffer until the wanted key is
  present) and zipGo (the outer for-loop over the driving sequence).
  The OrderedDict buffer is embedded as an insertion-ordered association
  list List (kappa x beta); popitem with last False is dropping the head,
  buffer.pop(key) is bufPop, membership tests are bufContains.
* MapKeyZipperIterDataPipe (functional name zip_with_map): the lookup
  key-join, embedded as mapZipGo; the MapDataPipe is embedded as a function
  kappa -> Option delta whose none result is the raw not-found signal
  (KeyError / IndexError in the source).
* The length methods of both classes and the buffer_size validation of
  IterKeyZipperIterDataPipe.__init__.

Instrumentation: besides the yielded outputs and the terminating error, a
run records the unconsumed suffix of the reference sequence, the number of
warnings and evictions, the eviction ordinal at which the one-time warning
fired, the largest buffer size observed right after any insertion (the only
moment at which the buffer grows), the buffer size observed at each
eviction, and the buffer size observed at each yield-suspension point.
The merge function is total in the embedding: the source's omitted merge_fn
is the instantiation merge_fn := Prod.mk, and the keep_key := False output
mode is the Prod.snd projection of the recorded (key, result) pairs, since
the generator computes both key and result in either mode.
-/

/-- Configuration of IterKeyZipperIterDataPipe as fixed by a successful
`__init__`: the two key extractors (ref_key_fn already defaulted to key_fn
when it was omitted), the merge function (Prod.mk when omitted), and the
validated buffer size (none embeds the Python None, unbounded mode). -/
structure ZipCfg (α β κ γ : Type) where
  key_fn : α → κ
  ref_key_fn : β → κ
  merge_fn : α → β → γ
  buffer_size : Option Nat

/-- The two fatal runtime errors of IterKeyZipperIterDataPipe.__iter__:
the BufferError raised on StopIteration from the reference side (carrying
the offending driving item) and the ValueError raised on a duplicate key
found in the buffer. -/
inductive ZipError (α : Type) where
  | unmatchedKey (data : α)
  | duplicateRefKey
deriving DecidableEq

/-- Instrumentation counters of one pass of the streaming zipper. -/
structure ZipStats where
  warnCount : Nat
  evictCount : Nat
  warnEvictIdx : Option Nat
  maxBuf : Nat
  evictSizes : List Nat
deriving DecidableEq

/-- Counters at the start of a pass. -/
def initZipStats : ZipStats := ⟨0, 0, none, 0, []⟩

/-- Result of one pass of the streaming zipper: outputs as (key, result)
pairs in emission order, the terminating error if any, the part of the
reference sequence never pulled, the counters, and the buffer size at each
yield point. -/
structure ZipRun (α β κ γ : Type) where
  outputs : List (κ × γ)
  error : Option (ZipError α)
  refLeft : List β
  stats : ZipStats
  yieldSizes : List Nat
deriving DecidableEq

/-- Result of the inner while-loop of the generator. -/
structure PullResult (α β κ : Type) where
  err : Option (ZipError α)
  buffer : List (κ × β)
  refIt : List β
  flag : Bool
  st : ZipStats
deriving DecidableEq

/-- Membership test `key in buffer` on the insertion-ordered buffer. -/
def bufContains [DecidableEq κ] (buffer : List (κ × β)) (k : κ) : Bool :=
  buffer.any (fun p => decide (p.1 = k))

/-- `buffer.pop(key)`: the bound value together with the buffer without
that entry, or none when the key is absent. -/
def bufPop [DecidableEq κ] (buffer : List (κ × β)) (k : κ) :
    Option (β × List (κ × β)) :=
  match buffer.find? (fun p => decide (p.1 = k)) with
  | some p => some (p.2, buffer.eraseP (fun q => decide (q.1 = k)))
  | none => none

/-- The eviction guard of source line 97: buffer_size is not None and
len(buffer) is greater than buffer_size. -/
def doEvict (buffer_size : Option Nat) (buffer : List (κ × β)) : Bool :=
  match buffer_size with
  | some c => decide (c < buffer.length)
  | none => false

/-- Counter update for the one-time warning of source lines 98-103. -/
def warnStats (st : ZipStats) : ZipStats :=
  { st with warnCount := st.warnCount + 1, warnEvictIdx := some st.evictCount }

/-- Counter update for an eviction (source line 104), recording the buffer
size observed at the eviction. -/
def evictStats (st : ZipStats) (n : Nat) : ZipStats :=
  { st with evictCount := st.evictCount + 1, evictSizes := st.evictSizes ++ [n] }

/-- Counter update after an insertion (source line 105), recording the new
buffer size into the observed maximum. -/
def pushStats (st : ZipStats) (n : Nat) : ZipStats :=
  { st with maxBuf := max st.maxBuf n }

/-- The inner while-loop of IterKeyZipperIterDataPipe.__iter__ (source
lines 86-105): pull reference items until `key` is in the buffer.  A pulled
item whose reference key is already buffered raises the duplicate ValueError;
exhaustion of the reference iterator raises the unmatched BufferError; when
the buffer holds more than buffer_size entries (bounded mode only) the
oldest entry is evicted before the new one is appended, warning on the
first eviction of the pass only. -/
def pullUntil [DecidableEq κ] (ref_key_fn : β → κ) (buffer_size : Option Nat)
    (data : α) (key : κ) (buffer : List (κ × β)) (refIt : List β)
    (flag : Bool) (st : ZipStats) : PullResult α β κ :=
  if bufContains buffer key then ⟨none, buffer, refIt, flag, st⟩
  else
    match refIt with
    | [] => ⟨some (ZipError.unmatchedKey data), buffer, [], flag, st⟩
    | r :: rest =>
      let rk := ref_key_fn r
      if bufContains buffer rk then
        ⟨some ZipError.duplicateRefKey, buffer, rest, flag, st⟩
      else
        let e := doEvict buffer_size buffer
        let st1 : ZipStats := if e && flag then warnStats st else st
        let flag1 : Bool := if e then false else flag
        let buffer1 := if e then buffer.drop 1 else buffer
        let st2 : ZipStats := if e then evictStats st1 buffer.length else st1
        let buffer2 := buffer1 ++ [(rk, r)]
        pullUntil ref_key_fn buffer_size data key buffer2 rest flag1
          (pushStats st2 buffer2.length)

/-- The outer for-loop of IterKeyZipperIterDataPipe.__iter__ (source lines
84-110): for each driving item compute its key, run the inner loop, pop the
match from the buffer, merge, and record the (key, result) output.  The
bufPop-none branch is unreachable (the inner loop only succeeds with the
key present; Python would raise KeyError there). -/
def zipGo [DecidableEq κ] (cfg : ZipCfg α β κ γ) (source : List α)
    (buffer : List (κ × β)) (refIt : List β) (flag : Bool) (st : ZipStats)
    (acc : List (κ × γ)) (ys : List Nat) : ZipRun α β κ γ :=
  match source with
  | [] => ⟨acc, none, refIt, st, ys⟩
  | data :: srcRest =>
    let key := cfg.key_fn data
    let pr := pullUntil cfg.ref_key_fn cfg.buffer_size data key buffer refIt flag st
    match pr.err with
    | some e => ⟨acc, some e, pr.refIt, pr.st, ys⟩
    | none =>
      match bufPop pr.buffer key with
      | none => ⟨acc, none, pr.refIt, pr.st, ys⟩
      | some (rv, buffer2) =>
        zipGo cfg srcRest buffer2 pr.refIt pr.flag pr.st
          (acc ++ [(key, cfg.merge_fn data rv)]) (ys ++ [buffer2.length])

/-- One full pass of the streaming zipper: lines 81-83 of the source create
a fresh empty buffer, a fresh iterator over the reference datapipe, and a
fresh warn_once_flag set to True; then the loop runs. -/
def zipPass [DecidableEq κ] (cfg : ZipCfg α β κ γ) (source : List α)
    (ref : List β) : ZipRun α β κ γ :=
  zipGo cfg source [] ref true initZipStats [] []

/-- Outputs of a pass in keep_key mode: the generator yields (key, res). -/
def zipPassKeepKey [DecidableEq κ] (cfg : ZipCfg α β κ γ) (source : List α)
    (ref : List β) : List (κ × γ) :=
  (zipPass cfg source ref).outputs

/-- Outputs of a pass in the default mode: the generator yields res only. -/
def zipPassPlain [DecidableEq κ] (cfg : ZipCfg α β κ γ) (source : List α)
    (ref : List β) : List γ :=
  (zipPass cfg source ref).outputs.map Prod.snd

/-- The fatal runtime error of MapKeyZipperIterDataPipe.__iter__: the
KeyError raised when the map lookup fails, reporting the offending item and
the computed key (the raw KeyError / IndexError of the MapDataPipe is
caught and translated). -/
inductive MapZipError (α κ : Type) where
  | keyNotFound (item : α) (key : κ)
deriving DecidableEq

/-- Result of one pass of the lookup key-join. -/
structure MapZipRun (α κ γ : Type) where
  outputs : List γ
  error : Option (MapZipError α κ)
deriving DecidableEq

/-- MapKeyZipperIterDataPipe.__iter__ (source lines 163-170): for each
driving item look its key up in the map, failing with the translated
key-not-found error, else merge and yield.  The omitted merge_fn is the
instantiation merge_fn := Prod.mk. -/
def mapZipGo (key_fn : α → κ) (merge_fn : α → δ → γ) (map : κ → Option δ) :
    List α → MapZipRun α κ γ
  | [] => ⟨[], none⟩
  | item :: rest =>
    let key := key_fn item
    match map key with
    | none => ⟨[], some (MapZipError.keyNotFound item key)⟩
    | some v =>
      let res := mapZipGo key_fn merge_fn map rest
      ⟨merge_fn item v :: res.outputs, res.error⟩

/-- IterKeyZipperIterDataPipe.__len__ (source lines 112-113): delegate to
len(self.source_datapipe); a driving pipe without a length (embedded as
none) makes the call itself raise, embedded as the error case. -/
def iterKeyZipperLen (srcLen : Option Nat) : Except Unit Nat :=
  match srcLen with
  | some n => Except.ok n
  | none => Except.error ()

/-- The initial value of MapKeyZipperIterDataPipe.length set in __init__. -/
def mapKeyZipperInitLength : Int := -1

/-- MapKeyZipperIterDataPipe.__len__ (source lines 172-175): if the cached
length is -1, compute len(self.source_iterdatapipe) and cache it, else
return the cache.  Returns the reported value together with the new cache;
a driving pipe without a length makes the first query raise with the cache
unchanged at -1 (the assignment never executes). -/
def mapKeyZipperLen (length : Int) (srcLen : Option Nat) :
    Except Unit (Int × Int) :=
  if length = -1 then
    match srcLen with
    | some n => Except.ok ((n : Int), (n : Int))
    | none => Except.error ()
  else Except.ok (length, length)

/-- The construction-time error of IterKeyZipperIterDataPipe.__init__ for a
non-None, non-positive buffer_size (source lines 76-77). -/
inductive InitError where
  | invalidBufferSize
deriving DecidableEq

/-- The default value of the buffer_size parameter in the signature of
IterKeyZipperIterDataPipe.__init__ (source line 60): the bounded 10000, not
None. -/
def defaultBufferSize : Option Int := some 10000

/-- The buffer_size validation of IterKeyZipperIterDataPipe.__init__
(source lines 76-78): raise when buffer_size is not None and is at most 0,
else store it. -/
def checkBufferSize (buffer_size : Option Int) : Except InitError (Option Int) :=
  match buffer_size with
  | some b => if b ≤ 0 then Except.error InitError.invalidBufferSize
              else Except.ok (some b)
  | none => Except.ok none

/-- Identity-key configuration over Nat used for concrete runs. -/
def natCfg (buffer_size : Option Nat) : ZipCfg Nat Nat Nat (Nat × Nat) :=
  ⟨id, id, Prod.mk, buffer_size⟩

example : (zipPass (natCfg none) [1, 2] [2, 1]).outputs
    = [(1, (1, 1)), (2, (2, 2))] := by decide

example : (zipPass (natCfg none) [1, 2] [2, 1]).error = none := by decide

/-- The spec's concrete scenario, with keys 0,1,2,3 in place of a,b,c,d:
driving (k, 100 * (k + 1)), reference (k, k + 1), merge adds the second
components, keep_key mode. -/
def scenarioCfg : ZipCfg (Nat × Nat) (Nat × Nat) Nat Nat :=
  ⟨Prod.fst, Prod.fst, fun a b => a.2 + b.2, some 10000⟩

example :
    zipPassKeepKey scenarioCfg [(0, 100), (1, 200), (2, 300)]
      [(0, 1), (1, 2), (2, 3), (3, 4)] = [(0, 101), (1, 202), (2, 303)] := by
  decide

/-! ### Basic lemmas about the buffer operations -/

theorem bufContains_iff [DecidableEq κ] (buffer : List (κ × β)) (k : κ) :
    bufContains buffer k = true ↔ k ∈ buffer.map Prod.fst := by
  simp [bufContains, List.any_eq_true, List.mem_map]

theorem bufContains_eq_false_iff [DecidableEq κ] (buffer : List (κ × β)) (k : κ) :
    bufContains buffer k = false ↔ k ∉ buffer.map Prod.fst := by
  rw [← Bool.not_eq_true, not_iff_not]
  exact bufContains_iff buffer k

theorem bufPop_of_mem [DecidableEq κ] {buffer : List (κ × β)} {k : κ}
    (h : k ∈ buffer.map Prod.fst) :
    ∃ rv, (k, rv) ∈ buffer ∧
      bufPop buffer k = some (rv, buffer.eraseP (fun q => decide (q.1 = k))) := by
  have hs : (buffer.find? (fun p => decide (p.1 = k))).isSome := by
    rw [List.find?_isSome]
    obtain ⟨p, hp, hpk⟩ := List.mem_map.1 h
    exact ⟨p, hp, by simp [hpk]⟩
  obtain ⟨p, hp⟩ := Option.isSome_iff_exists.1 hs
  have hpk : p.1 = k := by simpa using List.find?_some hp
  have hpmem : p ∈ buffer := List.mem_of_find?_eq_some hp
  refine ⟨p.2, ?_, ?_⟩
  · rw [← hpk]; exact hpmem
  · simp [bufPop, hp]

theorem map_fst_eraseP [DecidableEq κ] (buffer : List (κ × β)) (k : κ) :
    (buffer.eraseP (fun q => decide (q.1 = k))).map Prod.fst
      = (buffer.map Prod.fst).eraseP (fun x => decide (x = k)) := by
  induction buffer with
  | nil => simp
  | cons p rest ih =>
    by_cases h : p.1 = k
    · simp [List.eraseP_cons, h]
    · simp [List.eraseP_cons, h, ih]

theorem mem_map_fst_eraseP [DecidableEq κ] {buffer : List (κ × β)} {a k : κ}
    (hne : a ≠ k) (ha : a ∈ buffer.map Prod.fst) :
    a ∈ (buffer.eraseP (fun q => decide (q.1 = k))).map Prod.fst := by
  rw [map_fst_eraseP]
  exact (List.mem_eraseP_of_neg (by simp [hne])).2 ha

theorem map_fst_eraseP_sublist [DecidableEq κ] (buffer : List (κ × β)) (k : κ) :
    List.Sublist ((buffer.eraseP (fun q => decide (q.1 = k))).map Prod.fst)
      (buffer.map Prod.fst) :=
  List.Sublist.map Prod.fst (List.eraseP_sublist buffer)

/-! ### Unfolding lemmas for the inner loop -/

theorem pullUntil_found [DecidableEq κ] (ref_key_fn : β → κ)
    (buffer_size : Option Nat) (data : α) (key : κ) (buffer : List (κ × β))
    (refIt : List β) (flag : Bool) (st : ZipStats)
    (h : bufContains buffer key = true) :
    pullUntil ref_key_fn buffer_size data key buffer refIt flag st
      = ⟨none, buffer, refIt, flag, st⟩ := by
  cases refIt <;> · rw [pullUntil]; simp [h]

theorem pullUntil_nil [DecidableEq κ] (ref_key_fn : β → κ)
    (buffer_size : Option Nat) (data : α) (key : κ) (buffer : List (κ × β))
    (flag : Bool) (st : ZipStats) (h : bufContains buffer key = false) :
    pullUntil ref_key_fn buffer_size data key buffer [] flag st
      = ⟨some (ZipError.unmatchedKey data), buffer, [], flag, st⟩ := by
  rw [pullUntil]; simp [h]

theorem pullUntil_dup [DecidableEq κ] (ref_key_fn : β → κ)
    (buffer_size : Option Nat) (data : α) (key : κ) (buffer : List (κ × β))
    (r : β) (rest : List β) (flag : Bool) (st : ZipStats)
    (h : bufContains buffer key = false)
    (hdup : bufContains buffer (ref_key_fn r) = true) :
    pullUntil ref_key_fn buffer_size data key buffer (r :: rest) flag st
      = ⟨some ZipError.duplicateRefKey, buffer, rest, flag, st⟩ := by
  rw [pullUntil]; simp [h, hdup]

theorem pullUntil_step [DecidableEq κ] (ref_key_fn : β → κ)
    (buffer_size : Option Nat) (data : α) (key : κ) (buffer : List (κ × β))
    (r : β) (rest : List β) (flag : Bool) (st : ZipStats)
    (h : bufContains buffer key = false)
    (hdup : bufContains buffer (ref_key_fn r) = false) :
    pullUntil ref_key_fn buffer_size data key buffer (r :: rest) flag st
      = pullUntil ref_key_fn buffer_size data key
          ((if doEvict buffer_size buffer then buffer.drop 1 else buffer)
            ++ [(ref_key_fn r, r)])
          rest
          (if doEvict buffer_size buffer then false else flag)
          (pushStats
            (if doEvict buffer_size buffer then
              evictStats
                (if doEvict buffer_size buffer && flag then warnStats st else st)
                buffer.length
             else
              (if doEvict buffer_size buffer && flag then warnStats st else st))
            (((if doEvict buffer_size buffer then buffer.drop 1 else buffer)
              ++ [(ref_key_fn r, r)]).length)) := by
  rw [pullUntil]; simp [h, hdup]

/-! ### Properties of the inner loop -/

theorem pull_err_unmatched [DecidableEq κ] {ref_key_fn : β → κ}
    {buffer_size : Option Nat} {data d : α} {key : κ}
    (refIt : List β) (buffer : List (κ × β)) (flag : Bool) (st : ZipStats)
    (h : (pullUntil ref_key_fn buffer_size data key buffer refIt flag st).err
      = some (ZipError.unmatchedKey d)) :
    d = data ∧
      (pullUntil ref_key_fn buffer_size data key buffer refIt flag st).refIt
        = [] := by
  induction refIt generalizing buffer flag st with
  | nil =>
    by_cases hk : bufContains buffer key = true
    · rw [pullUntil_found _ _ _ _ _ _ _ _ hk] at h
      simp at h
    · rw [Bool.not_eq_true] at hk
      rw [pullUntil_nil _ _ _ _ _ _ _ hk] at h ⊢
      simp at h
      simp [h]
  | cons r rest ih =>
    by_cases hk : bufContains buffer key = true
    · rw [pullUntil_found _ _ _ _ _ _ _ _ hk] at h
      simp at h
    · rw [Bool.not_eq_true] at hk
      by_cases hdup : bufContains buffer (ref_key_fn r) = true
      · rw [pullUntil_dup _ _ _ _ _ _ _ _ _ hk hdup] at h
        simp at h
      · rw [Bool.not_eq_true] at hdup
        rw [pullUntil_step _ _ _ _ _ _ _ _ _ hk hdup] at h ⊢
        exact ih _ _ _ h

theorem pull_err_none_key_mem [DecidableEq κ] {ref_key_fn : β → κ}
    {buffer_size : Option Nat} {data : α} {key : κ}
    (refIt : List β) (buffer : List (κ × β)) (flag : Bool) (st : ZipStats)
    (h : (pullUntil ref_key_fn buffer_size data key buffer refIt flag st).err
      = none) :
    key ∈ (pullUntil ref_key_fn buffer_size data key buffer refIt
      flag st).buffer.map Prod.fst := by
  induction refIt generalizing buffer flag st with
  | nil =>
    by_cases hk : bufContains buffer key = true
    · rw [pullUntil_found _ _ _ _ _ _ _ _ hk]
      exact (bufContains_iff _ _).1 hk
    · rw [Bool.not_eq_true] at hk
      rw [pullUntil_nil _ _ _ _ _ _ _ hk] at h
      simp at h
  | cons r rest ih =>
    by_cases hk : bufContains buffer key = true
    · rw [pullUntil_found _ _ _ _ _ _ _ _ hk]
      exact (bufContains_iff _ _).1 hk
    · rw [Bool.not_eq_true] at hk
      by_cases hdup : bufContains buffer (ref_key_fn r) = true
      · rw [pullUntil_dup _ _ _ _ _ _ _ _ _ hk hdup] at h
        simp at h
      · rw [Bool.not_eq_true] at hdup
        rw [pullUntil_step _ _ _ _ _ _ _ _ _ hk hdup] at h ⊢
        exact ih _ _ _ h

theorem pull_suffix [DecidableEq κ] (ref_key_fn : β → κ)
    (buffer_size : Option Nat) (data : α) (key : κ)
    (refIt : List β) (buffer : List (κ × β)) (flag : Bool) (st : ZipStats) :
    ∃ pre,
      refIt = pre
        ++ (pullUntil ref_key_fn buffer_size data key buffer refIt flag st).refIt
      ∧ ∀ a ∈ (pullUntil ref_key_fn buffer_size data key buffer refIt
          flag st).buffer.map Prod.fst,
          a ∈ buffer.map Prod.fst ∨ a ∈ pre.map ref_key_fn := by
  induction refIt generalizing buffer flag st with
  | nil =>
    by_cases hk : bufContains buffer key = true
    · rw [pullUntil_found _ _ _ _ _ _ _ _ hk]
      exact ⟨[], by simp⟩
    · rw [Bool.not_eq_true] at hk
      rw [pullUntil_nil _ _ _ _ _ _ _ hk]
      exact ⟨[], by simp⟩
  | cons r rest ih =>
    by_cases hk : bufContains buffer key = true
    · rw [pullUntil_found _ _ _ _ _ _ _ _ hk]
      exact ⟨[], by simp⟩
    · rw [Bool.not_eq_true] at hk
      by_cases hdup : bufContains buffer (ref_key_fn r) = true
      · rw [pullUntil_dup _ _ _ _ _ _ _ _ _ hk hdup]
        exact ⟨[r], by simp, fun a ha => Or.inl ha⟩
      · rw [Bool.not_eq_true] at hdup
        rw [pullUntil_step _ _ _ _ _ _ _ _ _ hk hdup]
        obtain ⟨pre, hpre, hkeys⟩ := ih
          ((if doEvict buffer_size buffer then buffer.drop 1 else buffer)
            ++ [(ref_key_fn r, r)])
          (if doEvict buffer_size buffer then false else flag)
          (pushStats
            (if doEvict buffer_size buffer then
              evictStats
                (if doEvict buffer_size buffer && flag then warnStats st else st)
                buffer.length
             else
              (if doEvict buffer_size buffer && flag then warnStats st else st))
            (((if doEvict buffer_size buffer then buffer.drop 1 else buffer)
              ++ [(ref_key_fn r, r)]).length))
        refine ⟨r :: pre, congrArg (List.cons r) hpre, ?_⟩
        intro a ha
        rcases hkeys a ha with hbuf | hpre2
        · simp only [List.map_append, List.mem_append] at hbuf
          rcases hbuf with hbuf | hrk
          · left
            by_cases he : doEvict buffer_size buffer = true
            · simp only [he, if_true] at hbuf
              rw [List.map_drop] at hbuf
              exact List.mem_of_mem_drop hbuf
            · simp only [he, if_false, Bool.false_eq_true] at hbuf
              exact hbuf
          · right
            simp at hrk
            simp [hrk]
        · right
          simp [hpre2]

theorem pull_err_dup [DecidableEq κ] {ref_key_fn : β → κ}
    {buffer_size : Option Nat} {data : α} {key : κ}
    (refIt : List β) (buffer : List (κ × β)) (flag : Bool) (st : ZipStats)
    (h : (pullUntil ref_key_fn buffer_size data key buffer refIt flag st).err
      = some ZipError.duplicateRefKey) :
    ∃ pre r,
      refIt = pre ++ r
        :: (pullUntil ref_key_fn buffer_size data key buffer refIt flag st).refIt
      ∧ (ref_key_fn r ∈ buffer.map Prod.fst
          ∨ ref_key_fn r ∈ pre.map ref_key_fn) := by
  induction refIt generalizing buffer flag st with
  | nil =>
    by_cases hk : bufContains buffer key = true
    · rw [pullUntil_found _ _ _ _ _ _ _ _ hk] at h
      simp at h
    · rw [Bool.not_eq_true] at hk
      rw [pullUntil_nil _ _ _ _ _ _ _ hk] at h
      simp at h
  | cons r rest ih =>
    by_cases hk : bufContains buffer key = true
    · rw [pullUntil_found _ _ _ _ _ _ _ _ hk] at h
      simp at h
    · rw [Bool.not_eq_true] at hk
      by_cases hdup : bufContains buffer (ref_key_fn r) = true
      · rw [pullUntil_dup _ _ _ _ _ _ _ _ _ hk hdup]
        exact ⟨[], r, rfl, Or.inl ((bufContains_iff _ _).1 hdup)⟩
      · rw [Bool.not_eq_true] at hdup
        rw [pullUntil_step _ _ _ _ _ _ _ _ _ hk hdup] at h ⊢
        obtain ⟨pre, r2, hsplit, hmem⟩ := ih _ _ _ h
        refine ⟨r :: pre, r2, congrArg (List.cons r) hsplit, ?_⟩
        rcases hmem with hbuf | hpre
        · simp only [List.map_append, List.mem_append] at hbuf
          rcases hbuf with hbuf | hrk
          · left
            by_cases he : doEvict buffer_size buffer = true
            · simp only [he, if_true] at hbuf
              rw [List.map_drop] at hbuf
              exact List.mem_of_mem_drop hbuf
            · simp only [he, if_false, Bool.false_eq_true] at hbuf
              exact hbuf
          · right
            simp at hrk
            simp [hrk]
        · right
          simp [hpre]

/-- Invariant tying warn_once_flag to the warning and eviction counters:
while the flag is still set nothing has been warned or evicted; once it is
cleared exactly one warning has fired, at the first eviction. -/
def warnFlagInv (flag : Bool) (st : ZipStats) : Prop :=
  (flag = true → st.warnCount = 0 ∧ st.evictCount = 0 ∧ st.warnEvictIdx = none)
  ∧ (flag = false →
      st.warnCount = 1 ∧ 1 ≤ st.evictCount ∧ st.warnEvictIdx = some 0)

theorem warnFlagInv_pushStats {flag : Bool} {st : ZipStats} (n : Nat)
    (h : warnFlagInv flag st) : warnFlagInv flag (pushStats st n) := by
  simpa [warnFlagInv, pushStats] using h

theorem pull_warnFlagInv [DecidableEq κ] {ref_key_fn : β → κ}
    {buffer_size : Option Nat} {data : α} {key : κ}
    (refIt : List β) (buffer : List (κ × β)) (flag : Bool) (st : ZipStats)
    (hinv : warnFlagInv flag st) :
    warnFlagInv
      (pullUntil ref_key_fn buffer_size data key buffer refIt flag st).flag
      (pullUntil ref_key_fn buffer_size data key buffer refIt flag st).st := by
  induction refIt generalizing buffer flag st with
  | nil =>
    by_cases hk : bufContains buffer key = true
    · rw [pullUntil_found _ _ _ _ _ _ _ _ hk]
      exact hinv
    · rw [Bool.not_eq_true] at hk
      rw [pullUntil_nil _ _ _ _ _ _ _ hk]
      exact hinv
  | cons r rest ih =>
    by_cases hk : bufContains buffer key = true
    · rw [pullUntil_found _ _ _ _ _ _ _ _ hk]
      exact hinv
    · rw [Bool.not_eq_true] at hk
      by_cases hdup : bufContains buffer (ref_key_fn r) = true
      · rw [pullUntil_dup _ _ _ _ _ _ _ _ _ hk hdup]
        exact hinv
      · rw [Bool.not_eq_true] at hdup
        rw [pullUntil_step _ _ _ _ _ _ _ _ _ hk hdup]
        apply ih
        apply warnFlagInv_pushStats
        by_cases he : doEvict buffer_size buffer = true
        · simp only [he, if_true, Bool.true_and]
          cases flag with
          | true =>
            obtain ⟨h0, h1, h2⟩ := hinv.1 rfl
            constructor
            · intro hc; cases hc
            · intro _
              simp [warnStats, evictStats, h0, h1, h2]
          | false =>
            obtain ⟨h0, h1, h2⟩ := hinv.2 rfl
            constructor
            · intro hc; cases hc
            · intro _
              simp only [if_neg (by simp : ¬(false = true))]
              simp [evictStats, h0, h2]
        · simp only [he, if_false, Bool.false_eq_true, Bool.false_and]
          simpa using hinv

theorem pull_unbounded_stats [DecidableEq κ] (ref_key_fn : β → κ)
    (data : α) (key : κ)
    (refIt : List β) (buffer : List (κ × β)) (flag : Bool) (st : ZipStats) :
    (pullUntil ref_key_fn none data key buffer refIt flag st).flag = flag
    ∧ (pullUntil ref_key_fn none data key buffer refIt flag st).st.warnCount
        = st.warnCount
    ∧ (pullUntil ref_key_fn none data key buffer refIt flag st).st.evictCount
        = st.evictCount := by
  induction refIt generalizing buffer flag st with
  | nil =>
    by_cases hk : bufContains buffer key = true
    · rw [pullUntil_found _ _ _ _ _ _ _ _ hk]
      exact ⟨rfl, rfl, rfl⟩
    · rw [Bool.not_eq_true] at hk
      rw [pullUntil_nil _ _ _ _ _ _ _ hk]
      exact ⟨rfl, rfl, rfl⟩
  | cons r rest ih =>
    by_cases hk : bufContains buffer key = true
    · rw [pullUntil_found _ _ _ _ _ _ _ _ hk]
      exact ⟨rfl, rfl, rfl⟩
    · rw [Bool.not_eq_true] at hk
      by_cases hdup : bufContains buffer (ref_key_fn r) = true
      · rw [pullUntil_dup _ _ _ _ _ _ _ _ _ hk hdup]
        exact ⟨rfl, rfl, rfl⟩
      · rw [Bool.not_eq_true] at hdup
        rw [pullUntil_step _ _ _ _ _ _ _ _ _ hk hdup]
        have he : doEvict (none : Option Nat) buffer = false := rfl
        simp only [he, if_false, Bool.false_eq_true, Bool.false_and]
        obtain ⟨h1, h2, h3⟩ := ih
          (buffer ++ [(ref_key_fn r, r)]) flag
          (pushStats st ((buffer ++ [(ref_key_fn r, r)]).length))
        exact ⟨h1, by rw [h2]; rfl, by rw [h3]; rfl⟩

theorem pull_bounded_size [DecidableEq κ] (ref_key_fn : β → κ) (c : Nat)
    (data : α) (key : κ)
    (refIt : List β) (buffer : List (κ × β)) (flag : Bool) (st : ZipStats)
    (hb : buffer.length ≤ c + 1) (hmax : st.maxBuf ≤ c + 1)
    (hev : ∀ s ∈ st.evictSizes, s = c + 1) :
    (pullUntil ref_key_fn (some c) data key buffer refIt flag st).buffer.length
        ≤ c + 1
    ∧ (pullUntil ref_key_fn (some c) data key buffer refIt flag st).st.maxBuf
        ≤ c + 1
    ∧ ∀ s ∈ (pullUntil ref_key_fn (some c) data key buffer refIt
        flag st).st.evictSizes, s = c + 1 := by
  induction refIt generalizing buffer flag st with
  | nil =>
    by_cases hk : bufContains buffer key = true
    · rw [pullUntil_found _ _ _ _ _ _ _ _ hk]
      exact ⟨hb, hmax, hev⟩
    · rw [Bool.not_eq_true] at hk
      rw [pullUntil_nil _ _ _ _ _ _ _ hk]
      exact ⟨hb, hmax, hev⟩
  | cons r rest ih =>
    by_cases hk : bufContains buffer key = true
    · rw [pullUntil_found _ _ _ _ _ _ _ _ hk]
      exact ⟨hb, hmax, hev⟩
    · rw [Bool.not_eq_true] at hk
      by_cases hdup : bufContains buffer (ref_key_fn r) = true
      · rw [pullUntil_dup _ _ _ _ _ _ _ _ _ hk hdup]
        exact ⟨hb, hmax, hev⟩
      · rw [Bool.not_eq_true] at hdup
        rw [pullUntil_step _ _ _ _ _ _ _ _ _ hk hdup]
        by_cases hlen : c < buffer.length
        · have hlen1 : buffer.length = c + 1 := by omega
          have he : doEvict (some c) buffer = true := by
            simp [doEvict, hlen]
          simp only [he, if_true, Bool.true_and]
          have hlb2 : ((buffer.drop 1) ++ [(ref_key_fn r, r)]).length = c + 1 := by
            simp [hlen1]
          apply ih
          · rw [hlb2]
          · have : ∀ st0 : ZipStats, st0.maxBuf ≤ c + 1 →
                (pushStats (evictStats st0 buffer.length)
                  ((buffer.drop 1 ++ [(ref_key_fn r, r)]).length)).maxBuf ≤ c + 1 := by
              intro st0 h0
              simp [pushStats, evictStats, hlb2, max_le_iff, h0, hb]
            cases flag
            · simpa using this st hmax
            · simpa using this (warnStats st) (by simpa [warnStats] using hmax)
          · intro s hs
            have hs2 : s ∈ st.evictSizes ∨ s = c + 1 := by
              cases flag <;>
                simpa [pushStats, evictStats, warnStats, hlen1] using hs
            rcases hs2 with h | h
            · exact hev s h
            · exact h
        · have he : doEvict (some c) buffer = false := by
            simp [doEvict, hlen]
          simp only [he, if_false, Bool.false_eq_true, Bool.false_and]
          apply ih
          · simp
            omega
          · simp [pushStats, max_le_iff, hmax]
            omega
          · intro s hs
            simp only [pushStats] at hs
            exact hev s hs

theorem pull_spec_unbounded [DecidableEq κ] (ref_key_fn : β → κ) (data : α)
    (key : κ) (refIt : List β) (buffer : List (κ × β)) (flag : Bool)
    (st : ZipStats)
    (hnd : (buffer.map Prod.fst ++ refIt.map ref_key_fn).Nodup)
    (hk : key ∈ buffer.map Prod.fst ∨ key ∈ refIt.map ref_key_fn) :
    ∃ pulled rest st2,
      refIt = pulled ++ rest ∧
      pullUntil ref_key_fn none data key buffer refIt flag st
        = ⟨none, buffer ++ pulled.map (fun r => (ref_key_fn r, r)), rest, flag,
            st2⟩ := by
  induction refIt generalizing buffer flag st with
  | nil =>
    have hkb : key ∈ buffer.map Prod.fst := by
      rcases hk with h | h
      · exact h
      · simp at h
    rw [pullUntil_found _ _ _ _ _ _ _ _ ((bufContains_iff _ _).2 hkb)]
    exact ⟨[], [], st, by simp, by simp⟩
  | cons r rest0 ih =>
    by_cases hkb : key ∈ buffer.map Prod.fst
    · rw [pullUntil_found _ _ _ _ _ _ _ _ ((bufContains_iff _ _).2 hkb)]
      exact ⟨[], r :: rest0, st, by simp, by simp⟩
    · have hc : bufContains buffer key = false :=
        (bufContains_eq_false_iff _ _).2 hkb
      have hrk : ref_key_fn r ∉ buffer.map Prod.fst := by
        rw [List.nodup_append] at hnd
        intro hmem
        exact hnd.2.2 hmem (by simp)
      have hdup : bufContains buffer (ref_key_fn r) = false :=
        (bufContains_eq_false_iff _ _).2 hrk
      rw [pullUntil_step _ _ _ _ _ _ _ _ _ hc hdup]
      have he : doEvict (none : Option Nat) buffer = false := rfl
      simp only [he, if_false, Bool.false_eq_true, Bool.false_and]
      have hnd2 : ((buffer ++ [(ref_key_fn r, r)]).map Prod.fst
          ++ rest0.map ref_key_fn).Nodup := by
        simp only [List.map_append, List.map_cons, List.map_nil]
        rw [List.append_assoc]
        simpa using hnd
      have hk2 : key ∈ (buffer ++ [(ref_key_fn r, r)]).map Prod.fst
          ∨ key ∈ rest0.map ref_key_fn := by
        rcases hk with h | h
        · exact absurd h hkb
        · simp only [List.map_cons, List.mem_cons] at h
          rcases h with h | h
          · left; simp [h]
          · right; exact h
      obtain ⟨pulled, restR, st2, hsplit, heq⟩ := ih _ _ _ hnd2 hk2
      refine ⟨r :: pulled, restR, st2, congrArg (List.cons r) hsplit, ?_⟩
      rw [heq]
      simp

theorem zipGo_nil [DecidableEq κ] (cfg : ZipCfg α β κ γ)
    (buffer : List (κ × β)) (refIt : List β) (flag : Bool) (st : ZipStats)
    (acc : List (κ × γ)) (ys : List Nat) :
    zipGo cfg [] buffer refIt flag st acc ys = ⟨acc, none, refIt, st, ys⟩ :=
  rfl

theorem zipGo_cons_err [DecidableEq κ] (cfg : ZipCfg α β κ γ) (data : α)
    (srcRest : List α) (buffer : List (κ × β)) (refIt : List β) (flag : Bool)
    (st : ZipStats) (acc : List (κ × γ)) (ys : List Nat) (e : ZipError α)
    (h : (pullUntil cfg.ref_key_fn cfg.buffer_size data (cfg.key_fn data)
      buffer refIt flag st).err = some e) :
    zipGo cfg (data :: srcRest) buffer refIt flag st acc ys
      = ⟨acc, some e,
          (pullUntil cfg.ref_key_fn cfg.buffer_size data (cfg.key_fn data)
            buffer refIt flag st).refIt,
          (pullUntil cfg.ref_key_fn cfg.buffer_size data (cfg.key_fn data)
            buffer refIt flag st).st, ys⟩ := by
  rw [zipGo, h]

theorem zipGo_cons_ok [DecidableEq κ] (cfg : ZipCfg α β κ γ) (data : α)
    (srcRest : List α) (buffer : List (κ × β)) (refIt : List β) (flag : Bool)
    (st : ZipStats) (acc : List (κ × γ)) (ys : List Nat) (rv : β)
    (buffer2 : List (κ × β))
    (h : (pullUntil cfg.ref_key_fn cfg.buffer_size data (cfg.key_fn data)
      buffer refIt flag st).err = none)
    (hpop : bufPop (pullUntil cfg.ref_key_fn cfg.buffer_size data
      (cfg.key_fn data) buffer refIt flag st).buffer (cfg.key_fn data)
      = some (rv, buffer2)) :
    zipGo cfg (data :: srcRest) buffer refIt flag st acc ys
      = zipGo cfg srcRest buffer2
          (pullUntil cfg.ref_key_fn cfg.buffer_size data (cfg.key_fn data)
            buffer refIt flag st).refIt
          (pullUntil cfg.ref_key_fn cfg.buffer_size data (cfg.key_fn data)
            buffer refIt flag st).flag
          (pullUntil cfg.ref_key_fn cfg.buffer_size data (cfg.key_fn data)
            buffer refIt flag st).st
          (acc ++ [(cfg.key_fn data, cfg.merge_fn data rv)])
          (ys ++ [buffer2.length]) := by
  rw [zipGo, h, hpop]

/-! ### Properties of the outer loop -/

theorem zipGo_err_unmatched [DecidableEq κ] {cfg : ZipCfg α β κ γ} {d : α}
    (source : List α) (buffer : List (κ × β)) (refIt : List β) (flag : Bool)
    (st : ZipStats) (acc : List (κ × γ)) (ys : List Nat)
    (h : (zipGo cfg source buffer refIt flag st acc ys).error
      = some (ZipError.unmatchedKey d)) :
    (zipGo cfg source buffer refIt flag st acc ys).refLeft = []
    ∧ ∃ pre post, source = pre ++ d :: post
        ∧ (zipGo cfg source buffer refIt flag st acc ys).outputs.length
            = acc.length + pre.length := by
  induction source generalizing buffer refIt flag st acc ys with
  | nil => rw [zipGo_nil] at h; simp at h
  | cons data srcRest ih =>
    cases herr : (pullUntil cfg.ref_key_fn cfg.buffer_size data
        (cfg.key_fn data) buffer refIt flag st).err with
    | some e =>
      rw [zipGo_cons_err _ _ _ _ _ _ _ _ _ _ herr] at h ⊢
      simp only at h
      injection h with h2
      subst h2
      obtain ⟨hd, hrefl⟩ := pull_err_unmatched _ _ _ _ herr
      subst hd
      exact ⟨hrefl, [], srcRest, rfl, by simp⟩
    | none =>
      have hkey := pull_err_none_key_mem _ _ _ _ herr
      obtain ⟨rv, hmem, hpop⟩ := bufPop_of_mem hkey
      rw [zipGo_cons_ok _ _ _ _ _ _ _ _ _ _ _ herr hpop] at h ⊢
      obtain ⟨hrefl, pre, post, hsplit, hlen⟩ := ih _ _ _ _ _ _ h
      refine ⟨hrefl, data :: pre, post, by simp [hsplit], ?_⟩
      rw [hlen]
      simp
      omega

theorem zipGo_err_dup [DecidableEq κ] {cfg : ZipCfg α β κ γ} {R : List β}
    (source : List α) (buffer : List (κ × β)) (refIt : List β) (flag : Bool)
    (st : ZipStats) (acc : List (κ × γ)) (ys : List Nat)
    (hpre : ∃ pre0, R = pre0 ++ refIt
      ∧ ∀ a ∈ buffer.map Prod.fst, a ∈ pre0.map cfg.ref_key_fn)
    (h : (zipGo cfg source buffer refIt flag st acc ys).error
      = some ZipError.duplicateRefKey) :
    ∃ R1 r, R = R1 ++ r :: (zipGo cfg source buffer refIt flag st acc ys).refLeft
      ∧ cfg.ref_key_fn r ∈ R1.map cfg.ref_key_fn := by
  induction source generalizing buffer refIt flag st acc ys with
  | nil => rw [zipGo_nil] at h; simp at h
  | cons data srcRest ih =>
    obtain ⟨pre0, hR, hbufkeys⟩ := hpre
    cases herr : (pullUntil cfg.ref_key_fn cfg.buffer_size data
        (cfg.key_fn data) buffer refIt flag st).err with
    | some e =>
      rw [zipGo_cons_err _ _ _ _ _ _ _ _ _ _ herr] at h ⊢
      simp only at h
      injection h with h2
      subst h2
      obtain ⟨pre1, r, hsplit, hmem⟩ := pull_err_dup _ _ _ _ herr
      refine ⟨pre0 ++ pre1, r, ?_, ?_⟩
      · rw [hR]
        conv_lhs => rw [hsplit]
        simp
      · rcases hmem with hbuf | hp1
        · have := hbufkeys _ hbuf
          simp only [List.map_append, List.mem_append]
          exact Or.inl this
        · simp only [List.map_append, List.mem_append]
          exact Or.inr hp1
    | none =>
      have hkey := pull_err_none_key_mem _ _ _ _ herr
      obtain ⟨rv, hmem, hpop⟩ := bufPop_of_mem hkey
      rw [zipGo_cons_ok _ _ _ _ _ _ _ _ _ _ _ herr hpop] at h ⊢
      obtain ⟨pre1, hsplit, hkeys⟩ := pull_suffix cfg.ref_key_fn
        cfg.buffer_size data (cfg.key_fn data)
        refIt buffer flag st
      apply ih _ _ _ _ _ _ _ h
      refine ⟨pre0 ++ pre1, ?_, ?_⟩
      · rw [hR]
        conv_lhs => rw [hsplit]
        simp
      · intro a ha
        have ha2 : a ∈ (pullUntil cfg.ref_key_fn cfg.buffer_size data
            (cfg.key_fn data) buffer refIt flag st).buffer.map Prod.fst :=
          List.Sublist.subset (map_fst_eraseP_sublist _ _) ha
        rcases hkeys a ha2 with hb | hp
        · simp only [List.map_append, List.mem_append]
          exact Or.inl (hbufkeys a hb)
        · simp only [List.map_append, List.mem_append]
          exact Or.inr hp

theorem zipGo_absent_key_err [DecidableEq κ] {cfg : ZipCfg α β κ γ}
    {R : List β} (source : List α) (buffer : List (κ × β)) (refIt : List β)
    (flag : Bool) (st : ZipStats) (acc : List (κ × γ)) (ys : List Nat)
    (hbuf : ∀ a ∈ buffer.map Prod.fst, a ∈ R.map cfg.ref_key_fn)
    (href : ∀ r ∈ refIt, cfg.ref_key_fn r ∈ R.map cfg.ref_key_fn)
    (hd : ∃ d ∈ source, cfg.key_fn d ∉ R.map cfg.ref_key_fn) :
    ((zipGo cfg source buffer refIt flag st acc ys).error).isSome := by
  induction source generalizing buffer refIt flag st acc ys with
  | nil => simp at hd
  | cons data srcRest ih =>
    cases herr : (pullUntil cfg.ref_key_fn cfg.buffer_size data
        (cfg.key_fn data) buffer refIt flag st).err with
    | some e =>
      rw [zipGo_cons_err _ _ _ _ _ _ _ _ _ _ herr]
      simp
    | none =>
      have hkey := pull_err_none_key_mem _ _ _ _ herr
      obtain ⟨rv, hmem, hpop⟩ := bufPop_of_mem hkey
      rw [zipGo_cons_ok _ _ _ _ _ _ _ _ _ _ _ herr hpop]
      obtain ⟨pre1, hsplit, hkeys⟩ := pull_suffix cfg.ref_key_fn
        cfg.buffer_size data (cfg.key_fn data)
        refIt buffer flag st
      have hprkeys : ∀ a ∈ (pullUntil cfg.ref_key_fn cfg.buffer_size data
          (cfg.key_fn data) buffer refIt flag st).buffer.map Prod.fst,
          a ∈ R.map cfg.ref_key_fn := by
        intro a ha
        rcases hkeys a ha with hb | hp
        · exact hbuf a hb
        · obtain ⟨r0, hr0, hr0a⟩ := List.mem_map.1 hp
          rw [← hr0a]
          exact href r0 (hsplit ▸ List.mem_append_left _ hr0)
      rcases hd with ⟨d, hdmem, hdabs⟩
      rcases List.mem_cons.1 hdmem with rfl | hdrest
      · exact absurd (hprkeys _ hkey) hdabs
      · apply ih
        · intro a ha
          exact hprkeys a (List.Sublist.subset (map_fst_eraseP_sublist _ _) ha)
        · intro r0 hr0
          apply href
          rw [hsplit]
          exact List.mem_append_right _ hr0
        · exact ⟨d, hdrest, hdabs⟩

theorem zipGo_warnInv [DecidableEq κ] (cfg : ZipCfg α β κ γ)
    (source : List α) (buffer : List (κ × β)) (refIt : List β) (flag : Bool)
    (st : ZipStats) (acc : List (κ × γ)) (ys : List Nat)
    (hinv : warnFlagInv flag st) :
    ∃ fl, warnFlagInv fl (zipGo cfg source buffer refIt flag st acc ys).stats := by
  induction source generalizing buffer refIt flag st acc ys with
  | nil => exact ⟨flag, hinv⟩
  | cons data srcRest ih =>
    cases herr : (pullUntil cfg.ref_key_fn cfg.buffer_size data
        (cfg.key_fn data) buffer refIt flag st).err with
    | some e =>
      rw [zipGo_cons_err _ _ _ _ _ _ _ _ _ _ herr]
      exact ⟨_, pull_warnFlagInv _ _ _ _ hinv⟩
    | none =>
      have hkey := pull_err_none_key_mem _ _ _ _ herr
      obtain ⟨rv, hmem, hpop⟩ := bufPop_of_mem hkey
      rw [zipGo_cons_ok _ _ _ _ _ _ _ _ _ _ _ herr hpop]
      exact ih _ _ _ _ _ _ (pull_warnFlagInv _ _ _ _ hinv)

theorem zipGo_unbounded_stats [DecidableEq κ] {cfg : ZipCfg α β κ γ}
    (hbs : cfg.buffer_size = none)
    (source : List α) (buffer : List (κ × β)) (refIt : List β) (flag : Bool)
    (st : ZipStats) (acc : List (κ × γ)) (ys : List Nat) :
    (zipGo cfg source buffer refIt flag st acc ys).stats.warnCount
        = st.warnCount
    ∧ (zipGo cfg source buffer refIt flag st acc ys).stats.evictCount
        = st.evictCount := by
  induction source generalizing buffer refIt flag st acc ys with
  | nil => exact ⟨rfl, rfl⟩
  | cons data srcRest ih =>
    have hps := pull_unbounded_stats cfg.ref_key_fn
      data (cfg.key_fn data) refIt buffer flag st
    cases herr : (pullUntil cfg.ref_key_fn cfg.buffer_size data
        (cfg.key_fn data) buffer refIt flag st).err with
    | some e =>
      rw [zipGo_cons_err _ _ _ _ _ _ _ _ _ _ herr]
      rw [hbs] at herr ⊢
      exact ⟨hps.2.1, hps.2.2⟩
    | none =>
      have hkey := pull_err_none_key_mem _ _ _ _ herr
      obtain ⟨rv, hmem, hpop⟩ := bufPop_of_mem hkey
      rw [zipGo_cons_ok _ _ _ _ _ _ _ _ _ _ _ herr hpop]
      obtain ⟨ih1, ih2⟩ := ih _ _ _ _ _ _
      constructor
      · rw [ih1, hbs]
        exact hps.2.1
      · rw [ih2, hbs]
        exact hps.2.2

theorem zipGo_bounded_size [DecidableEq κ] {cfg : ZipCfg α β κ γ} {c : Nat}
    (hbs : cfg.buffer_size = some c)
    (source : List α) (buffer : List (κ × β)) (refIt : List β) (flag : Bool)
    (st : ZipStats) (acc : List (κ × γ)) (ys : List Nat)
    (hb : buffer.length ≤ c + 1) (hmax : st.maxBuf ≤ c + 1)
    (hev : ∀ s ∈ st.evictSizes, s = c + 1) (hys : ∀ s ∈ ys, s ≤ c) :
    (zipGo cfg source buffer refIt flag st acc ys).stats.maxBuf ≤ c + 1
    ∧ (∀ s ∈ (zipGo cfg source buffer refIt flag st acc ys).stats.evictSizes,
        s = c + 1)
    ∧ (∀ s ∈ (zipGo cfg source buffer refIt flag st acc ys).yieldSizes,
        s ≤ c) := by
  induction source generalizing buffer refIt flag st acc ys with
  | nil => exact ⟨hmax, hev, hys⟩
  | cons data srcRest ih =>
    have hps := pull_bounded_size cfg.ref_key_fn c
      data (cfg.key_fn data) refIt buffer flag st hb hmax hev
    cases herr : (pullUntil cfg.ref_key_fn cfg.buffer_size data
        (cfg.key_fn data) buffer refIt flag st).err with
    | some e =>
      rw [zipGo_cons_err _ _ _ _ _ _ _ _ _ _ herr]
      rw [hbs] at herr ⊢
      exact ⟨hps.2.1, hps.2.2, hys⟩
    | none =>
      have hkey := pull_err_none_key_mem _ _ _ _ herr
      obtain ⟨rv, hmem, hpop⟩ := bufPop_of_mem hkey
      rw [zipGo_cons_ok _ _ _ _ _ _ _ _ _ _ _ herr hpop]
      rw [hbs] at herr hkey hmem ⊢
      have hb2 : ((pullUntil cfg.ref_key_fn (some c) data (cfg.key_fn data)
          buffer refIt flag st).buffer.eraseP
            (fun q => decide (q.1 = cfg.key_fn data))).length + 1
          = (pullUntil cfg.ref_key_fn (some c) data (cfg.key_fn data)
            buffer refIt flag st).buffer.length :=
        List.length_eraseP_add_one hmem (by simp)
      apply ih
      · omega
      · exact hps.2.1
      · exact hps.2.2
      · intro s hs
        rcases List.mem_append.1 hs with hs | hs
        · exact hys s hs
        · simp at hs
          omega

theorem zipGo_unbounded_correct [DecidableEq κ] {cfg : ZipCfg α β κ γ}
    {R : List β} (hbs : cfg.buffer_size = none)
    (source : List α) (buffer : List (κ × β)) (refIt : List β) (flag : Bool)
    (st : ZipStats) (acc : List (κ × γ)) (ys : List Nat)
    (h1 : ∀ p ∈ buffer, p.2 ∈ R ∧ cfg.ref_key_fn p.2 = p.1)
    (h2 : (buffer.map Prod.fst ++ refIt.map cfg.ref_key_fn).Nodup)
    (h3 : ∀ r ∈ refIt, r ∈ R)
    (h4 : ∀ d ∈ source, cfg.key_fn d ∈ buffer.map Prod.fst
        ∨ cfg.key_fn d ∈ refIt.map cfg.ref_key_fn)
    (h5 : (source.map cfg.key_fn).Nodup) :
    (zipGo cfg source buffer refIt flag st acc ys).error = none
    ∧ ∃ outs,
        (zipGo cfg source buffer refIt flag st acc ys).outputs = acc ++ outs
        ∧ List.Forall₂ (fun d out => ∃ r, r ∈ R
            ∧ cfg.ref_key_fn r = cfg.key_fn d
            ∧ out = (cfg.key_fn d, cfg.merge_fn d r)) source outs := by
  induction source generalizing buffer refIt flag st acc ys with
  | nil => exact ⟨rfl, [], by simp [zipGo_nil], List.Forall₂.nil⟩
  | cons data srcRest ih =>
    obtain ⟨pulled, restR, st2, hsplit, heq⟩ :=
      pull_spec_unbounded cfg.ref_key_fn data
        (cfg.key_fn data) refIt buffer flag st h2
        (h4 data (List.mem_cons_self _ _))
    have herr : (pullUntil cfg.ref_key_fn cfg.buffer_size data
        (cfg.key_fn data) buffer refIt flag st).err = none := by
      rw [hbs, heq]
    have hbuf2 : (pullUntil cfg.ref_key_fn cfg.buffer_size data
        (cfg.key_fn data) buffer refIt flag st).buffer
        = buffer ++ pulled.map (fun r => (cfg.ref_key_fn r, r)) := by
      rw [hbs, heq]
    have hrefIt2 : (pullUntil cfg.ref_key_fn cfg.buffer_size data
        (cfg.key_fn data) buffer refIt flag st).refIt = restR := by
      rw [hbs, heq]
    have hflag2 : (pullUntil cfg.ref_key_fn cfg.buffer_size data
        (cfg.key_fn data) buffer refIt flag st).flag = flag := by
      rw [hbs, heq]
    have hst2 : (pullUntil cfg.ref_key_fn cfg.buffer_size data
        (cfg.key_fn data) buffer refIt flag st).st = st2 := by
      rw [hbs, heq]
    have hkey := pull_err_none_key_mem _ _ _ _ herr
    obtain ⟨rv, hmem, hpop⟩ := bufPop_of_mem hkey
    rw [zipGo_cons_ok _ _ _ _ _ _ _ _ _ _ _ herr hpop]
    rw [hbuf2] at hkey hmem
    rw [hbuf2, hrefIt2, hflag2, hst2]
    have hbufmem : ∀ p ∈ buffer ++ pulled.map (fun r => (cfg.ref_key_fn r, r)),
        p.2 ∈ R ∧ cfg.ref_key_fn p.2 = p.1 := by
      intro p hp
      rcases List.mem_append.1 hp with hp | hp
      · exact h1 p hp
      · obtain ⟨r0, hr0, hr0p⟩ := List.mem_map.1 hp
        have : r0 ∈ refIt := by
          rw [hsplit]
          exact List.mem_append_left _ hr0
        rw [← hr0p]
        exact ⟨h3 r0 this, rfl⟩
    have hkeyseq : (buffer ++ pulled.map
        (fun r => (cfg.ref_key_fn r, r))).map Prod.fst
        = buffer.map Prod.fst ++ pulled.map cfg.ref_key_fn := by
      simp
    have h2b : ((buffer ++ pulled.map (fun r => (cfg.ref_key_fn r, r))).map
        Prod.fst ++ restR.map cfg.ref_key_fn).Nodup := by
      rw [hkeyseq, List.append_assoc, ← List.map_append, ← hsplit]
      exact h2
    have hne : ∀ d ∈ srcRest, cfg.key_fn d ≠ cfg.key_fn data := by
      intro d hd hc
      simp only [List.map_cons, List.nodup_cons] at h5
      exact h5.1 (hc ▸ List.mem_map_of_mem cfg.key_fn hd)
    obtain ⟨ihErr, outs2, ihOuts, ihFor⟩ := ih
      ((buffer ++ pulled.map (fun r => (cfg.ref_key_fn r, r))).eraseP
        (fun q => decide (q.1 = cfg.key_fn data)))
      restR flag st2
      (acc ++ [(cfg.key_fn data, cfg.merge_fn data rv)])
      (ys ++ [((buffer ++ pulled.map (fun r => (cfg.ref_key_fn r, r))).eraseP
        (fun q => decide (q.1 = cfg.key_fn data))).length])
      (by
        intro p hp
        exact hbufmem p (List.Sublist.subset (List.eraseP_sublist _) hp))
      (by
        refine List.Nodup.sublist ?_ h2b
        exact List.Sublist.append (map_fst_eraseP_sublist _ _)
          (List.Sublist.refl _))
      (by
        intro r0 hr0
        apply h3
        rw [hsplit]
        exact List.mem_append_right _ hr0)
      (by
        intro d hd
        rcases h4 d (List.mem_cons_of_mem _ hd) with hb | hr
        · left
          exact mem_map_fst_eraseP (hne d hd)
            (by rw [hkeyseq]; exact List.mem_append_left _ hb)
        · rw [hsplit, List.map_append, List.mem_append] at hr
          rcases hr with hr | hr
          · left
            exact mem_map_fst_eraseP (hne d hd)
              (by rw [hkeyseq]; exact List.mem_append_right _ hr)
          · right
            exact hr)
      (by
        simp only [List.map_cons, List.nodup_cons] at h5
        exact h5.2)
    refine ⟨ihErr, (cfg.key_fn data, cfg.merge_fn data rv) :: outs2, ?_, ?_⟩
    · rw [ihOuts]
      simp
    · refine List.Forall₂.cons ⟨rv, ?_, ?_, rfl⟩ ihFor
      · exact (hbufmem _ hmem).1
      · exact (hbufmem _ hmem).2

/-! ### Properties of the lookup key-join -/

theorem mapZipGo_all_present (key_fn : α → κ) (merge_fn : α → δ → γ)
    (map : κ → Option δ) (source : List α)
    (h : ∀ d ∈ source, (map (key_fn d)).isSome) :
    (mapZipGo key_fn merge_fn map source).error = none
    ∧ List.Forall₂ (fun d out => ∃ v, map (key_fn d) = some v
        ∧ out = merge_fn d v) source
        (mapZipGo key_fn merge_fn map source).outputs := by
  induction source with
  | nil => exact ⟨rfl, List.Forall₂.nil⟩
  | cons item rest ih =>
    obtain ⟨v, hv⟩ := Option.isSome_iff_exists.1
      (h item (List.mem_cons_self _ _))
    obtain ⟨ih1, ih2⟩ := ih (fun d hd => h d (List.mem_cons_of_mem _ hd))
    constructor
    · simp only [mapZipGo, hv]
      exact ih1
    · simp only [mapZipGo, hv]
      exact List.Forall₂.cons ⟨v, hv, rfl⟩ ih2

theorem mapZipGo_first_absent (key_fn : α → κ) (merge_fn : α → δ → γ)
    (map : κ → Option δ) (pre : List α) (d : α) (post : List α)
    (hpre : ∀ x ∈ pre, (map (key_fn x)).isSome)
    (habs : map (key_fn d) = none) :
    (mapZipGo key_fn merge_fn map (pre ++ d :: post)).error
        = some (MapZipError.keyNotFound d (key_fn d))
    ∧ (mapZipGo key_fn merge_fn map (pre ++ d :: post)).outputs.length
        = pre.length := by
  induction pre with
  | nil => simp [mapZipGo, habs]
  | cons x rest ih =>
    obtain ⟨v, hv⟩ := Option.isSome_iff_exists.1
      (hpre x (List.mem_cons_self _ _))
    obtain ⟨ih1, ih2⟩ := ih (fun y hy => hpre y (List.mem_cons_of_mem _ hy))
    constructor
    · simp only [List.cons_append, mapZipGo, hv]
      exact ih1
    · simp only [List.cons_append, mapZipGo, hv, List.length_cons,
        List.append_eq, ih2]

/-! ### Claim theorems -/

/-- Claim C1 counterexample: the claim as stated fails on the code in three
ways, each with the claimed precondition (every driving key appears exactly
once in the reference sequence under the reference key extractor) holding.
With identity keys: (a) D = [1], R = [0, 0, 1]: the key 1 appears exactly
once in R, yet the pass raises the duplicate-reference-key error while
searching and yields 0 outputs instead of 1; (b) bounded capacity 1,
D = [0, 1], R = [1, 2, 0], every driving key appearing exactly once in R:
the key 1 is evicted before it is needed and the pass yields 1 output
instead of 2; (c) D = [1, 1], R = [1]: the key 1 appears exactly once in R,
yet the second driving item cannot be matched and the pass yields 1 output
instead of 2. -/
theorem c1_as_stated_counterexample :
    (([0, 0, 1].map (natCfg none).ref_key_fn).count ((natCfg none).key_fn 1) = 1
      ∧ (zipPass (natCfg none) [1] [0, 0, 1]).outputs.length
          ≠ ([1] : List Nat).length
      ∧ (zipPass (natCfg none) [1] [0, 0, 1]).error
          = some ZipError.duplicateRefKey)
    ∧ (([1, 2, 0].map (natCfg (some 1)).ref_key_fn).count
          ((natCfg (some 1)).key_fn 0) = 1
      ∧ ([1, 2, 0].map (natCfg (some 1)).ref_key_fn).count
          ((natCfg (some 1)).key_fn 1) = 1
      ∧ (zipPass (natCfg (some 1)) [0, 1] [1, 2, 0]).outputs.length
          ≠ ([0, 1] : List Nat).length)
    ∧ (([1].map (natCfg none).ref_key_fn).count ((natCfg none).key_fn 1) = 1
      ∧ (zipPass (natCfg none) [1, 1] [1]).outputs.length
          ≠ ([1, 1] : List Nat).length) := by
  decide

/-- Claim C1 (amended): for a streaming key-zipper pass in unbounded mode
(buffer_size None), over a driving sequence whose keys are pairwise
distinct and a reference sequence whose ref-keys are pairwise distinct and
cover every driving key, the pass succeeds with exactly one output per
driving item, in driving order, each output merging the driving item with
the unique reference item of equal key — as (key, output) pairs in
keep_key mode and as bare outputs otherwise.  (The amendment adds the
distinctness of driving keys, the distinctness of all reference keys, and
unbounded capacity, each forced by one leg of the counterexample.) -/
theorem c1_streaming_join_unbounded_correct [DecidableEq κ]
    (cfg : ZipCfg α β κ γ) (D : List α) (R : List β)
    (hbs : cfg.buffer_size = none)
    (hD : (D.map cfg.key_fn).Nodup)
    (hR : (R.map cfg.ref_key_fn).Nodup)
    (hcov : ∀ d ∈ D, cfg.key_fn d ∈ R.map cfg.ref_key_fn) :
    (zipPass cfg D R).error = none
    ∧ (zipPass cfg D R).outputs.length = D.length
    ∧ List.Forall₂ (fun d out => ∃ r, r ∈ R
        ∧ cfg.ref_key_fn r = cfg.key_fn d
        ∧ out = (cfg.key_fn d, cfg.merge_fn d r)) D (zipPassKeepKey cfg D R)
    ∧ List.Forall₂ (fun d out => ∃ r, r ∈ R
        ∧ cfg.ref_key_fn r = cfg.key_fn d
        ∧ out = cfg.merge_fn d r) D (zipPassPlain cfg D R) := by
  obtain ⟨herr, outs, houts, hfor⟩ := zipGo_unbounded_correct hbs D [] R true
    initZipStats [] [] (by simp) (by simpa using hR) (fun r hr => hr)
    (fun d hd => Or.inr (hcov d hd)) hD
  have houts2 : (zipPass cfg D R).outputs = outs := by
    simpa [zipPass] using houts
  refine ⟨herr, ?_, ?_, ?_⟩
  · rw [houts2]
    exact (List.Forall₂.length_eq hfor).symm
  · rw [zipPassKeepKey, houts2]
    exact hfor
  · rw [zipPassPlain, houts2, List.forall₂_map_right_iff]
    refine List.Forall₂.imp ?_ hfor
    rintro a b ⟨r, hr1, hr2, hr3⟩
    exact ⟨r, hr1, hr2, by rw [hr3]⟩

/-- Witness for C1 at a concrete unbounded run with distinct keys. -/
theorem c1_streaming_join_unbounded_correct_witness :
    (zipPass (natCfg none) [1, 2] [2, 1]).error = none
    ∧ (zipPass (natCfg none) [1, 2] [2, 1]).outputs.length
        = ([1, 2] : List Nat).length := by
  obtain ⟨h1, h2, h3, h4⟩ := c1_streaming_join_unbounded_correct (natCfg none)
    [1, 2] [2, 1] rfl (by decide) (by decide) (by decide)
  exact ⟨h1, h2⟩

/-- Claim C2 counterexample: with capacity c = 1 and identity keys, the
pass over D = [5], R = [3, 5] is a normal successful pass during which the
buffer holds 2 entries (more than c) right after the second insertion, and
no eviction occurs at all. -/
theorem c2_as_stated_counterexample :
    (zipPass (natCfg (some 1)) [5] [3, 5]).stats.maxBuf = 2
    ∧ (zipPass (natCfg (some 1)) [5] [3, 5]).error = none
    ∧ (zipPass (natCfg (some 1)) [5] [3, 5]).stats.evictCount = 0 := by
  decide

/-- Claim C2 (amended): with bounded capacity c the buffer never holds more
than c + 1 entries at any observation point of the pass (the maximum is
attained right after an insertion), holds at most c entries at every yield
point, and every eviction (removal of the oldest entry) happens exactly
when the size exceeds c, that is at size c + 1, never while the size is at
most c.  (The amendment replaces the claimed intermediate bound c by c + 1:
the source checks len(buffer) > buffer_size before inserting the new item,
so the buffer reaches c + 1 entries.) -/
theorem c2_buffer_bound [DecidableEq κ] (cfg : ZipCfg α β κ γ) (c : Nat)
    (D : List α) (R : List β) (hbs : cfg.buffer_size = some c) :
    (zipPass cfg D R).stats.maxBuf ≤ c + 1
    ∧ (∀ s ∈ (zipPass cfg D R).stats.evictSizes, s = c + 1)
    ∧ (∀ s ∈ (zipPass cfg D R).yieldSizes, s ≤ c) :=
  zipGo_bounded_size hbs D [] R true initZipStats [] [] (by simp)
    (by simp [initZipStats]) (by simp [initZipStats]) (by simp)

/-- Witness for C2 at a concrete bounded run. -/
theorem c2_buffer_bound_witness :
    (zipPass (natCfg (some 1)) [5] [3, 5]).stats.maxBuf ≤ 2 :=
  (c2_buffer_bound (natCfg (some 1)) 1 [5] [3, 5] rfl).1

/-- Claim C3 counterexample: with identity keys, R = [5, 5] maps two items
to the same key, yet the pass over D = [5] succeeds with no error: the
first occurrence is matched and removed before the second is pulled — in
fact the second occurrence is never pulled at all (it is still in the
unconsumed remainder). -/
theorem c3_as_stated_counterexample :
    ¬ ([5, 5].map (natCfg none).ref_key_fn).Nodup
    ∧ (zipPass (natCfg none) [5] [5, 5]).error = none
    ∧ (zipPass (natCfg none) [5] [5, 5]).refLeft = [5] := by
  decide

/-- Claim C3 (amended): whenever the pass fails with the
duplicate-reference-key error, the moment of failure is the pull of a
reference item r whose ref-key duplicates the ref-key of an earlier pulled
item — r is the last consumed reference item, everything after it is
unconsumed — and this holds regardless of capacity mode; but a duplicate
whose earlier occurrence has already been matched and removed or evicted,
or whose second occurrence is never pulled, raises no error.  Concretely,
with identity keys, D = [9] and R = [0, 0, 7]: the error is raised exactly
at the pull of the second 0 (with [7] unconsumed and no outputs), not
before. -/
theorem c3_duplicate_error_only_when_buffered :
    (∀ (α β κ γ : Type) [DecidableEq κ] (cfg : ZipCfg α β κ γ)
        (D : List α) (R : List β),
      (zipPass cfg D R).error = some ZipError.duplicateRefKey →
      ∃ R1 r, R = R1 ++ r :: (zipPass cfg D R).refLeft
        ∧ cfg.ref_key_fn r ∈ R1.map cfg.ref_key_fn)
    ∧ (zipPass (natCfg none) [9] [0, 0, 7]).error
        = some ZipError.duplicateRefKey
    ∧ (zipPass (natCfg none) [9] [0, 0, 7]).refLeft = [7]
    ∧ (zipPass (natCfg none) [9] [0, 0, 7]).outputs = [] := by
  refine ⟨?_, by decide, by decide, by decide⟩
  intro α β κ γ _ cfg D R h
  exact zipGo_err_dup D [] R true initZipStats [] [] ⟨[], by simp, by simp⟩ h

/-- Witness for C3 applying the general part at a concrete erroring run. -/
theorem c3_duplicate_error_witness :
    ∃ R1 r, ([0, 0, 7] : List Nat)
        = R1 ++ r :: (zipPass (natCfg none) [9] [0, 0, 7]).refLeft
      ∧ (natCfg none).ref_key_fn r ∈ R1.map (natCfg none).ref_key_fn :=
  c3_duplicate_error_only_when_buffered.1 Nat Nat Nat (Nat × Nat)
    (natCfg none) [9] [0, 0, 7] (by decide)

/-- Claim C4: the duplicate-key error fires exactly when the newly pulled
reference item's key is currently buffered.  Generally: if the reference
sequence's ref-keys are pairwise distinct, no pulled key can be buffered
already and the duplicate error is impossible.  Concretely, with identity
keys: a duplicate whose first occurrence was already matched and removed
(D = [5, 5], R = [5, 5]) is inserted silently and matched by the later
driving item; a duplicate whose first occurrence was evicted by FIFO
overflow (capacity 1, D = [2, 0], R = [0, 1, 2, 0]) is likewise inserted
silently and matched later; and a duplicate pulled while its key is still
in the buffer (D = [9], R = [0, 0]) raises the error. -/
theorem c4_duplicate_iff_buffered :
    (∀ (α β κ γ : Type) [DecidableEq κ] (cfg : ZipCfg α β κ γ)
        (D : List α) (R : List β),
      (R.map cfg.ref_key_fn).Nodup →
      (zipPass cfg D R).error ≠ some ZipError.duplicateRefKey)
    ∧ ((zipPass (natCfg none) [5, 5] [5, 5]).error = none
      ∧ (zipPass (natCfg none) [5, 5] [5, 5]).outputs.length = 2)
    ∧ ((zipPass (natCfg (some 1)) [2, 0] [0, 1, 2, 0]).error = none
      ∧ (zipPass (natCfg (some 1)) [2, 0] [0, 1, 2, 0]).stats.evictCount = 1
      ∧ (zipPass (natCfg (some 1)) [2, 0] [0, 1, 2, 0]).outputs
          = [(2, (2, 2)), (0, (0, 0))])
    ∧ (zipPass (natCfg none) [9] [0, 0]).error
        = some ZipError.duplicateRefKey := by
  refine ⟨?_, ⟨by decide, by decide⟩, ⟨by decide, by decide, by decide⟩,
    by decide⟩
  intro α β κ γ _ cfg D R hnd h
  obtain ⟨R1, r, hsplit, hmem⟩ := zipGo_err_dup (R := R) D [] R true
    initZipStats [] [] ⟨[], by simp, by simp⟩ h
  rw [hsplit, List.map_append, List.map_cons, List.nodup_append] at hnd
  exact hnd.2.2 hmem (List.mem_cons_self _ _)

/-- Witness for C4 applying the general part at a duplicate-free run. -/
theorem c4_duplicate_iff_buffered_witness :
    (zipPass (natCfg none) [5] [3, 5]).error
      ≠ some ZipError.duplicateRefKey :=
  c4_duplicate_iff_buffered.1 Nat Nat Nat (Nat × Nat) (natCfg none) [5]
    [3, 5] (by decide)

/-- Claim C5 counterexample: with identity keys, (a) D = [9], R = [0, 0]:
the key 9 never appears in R, yet the pass fails with the
duplicate-reference-key error, not the unmatched-key error; (b) capacity 1,
D = [2, 3, 9], R = [3, 1, 2]: the key 9 never appears in R, yet the
unmatched-key error identifies the earlier driving item 3 — whose key does
appear in R but was evicted — not the item 9 whose key never appears. -/
theorem c5_as_stated_counterexample :
    (¬ ((9 : Nat) ∈ [0, 0].map (natCfg none).ref_key_fn)
      ∧ (zipPass (natCfg none) [9] [0, 0]).error
          = some ZipError.duplicateRefKey)
    ∧ ((zipPass (natCfg (some 1)) [2, 3, 9] [3, 1, 2]).error
        = some (ZipError.unmatchedKey 3)
      ∧ ¬ ((9 : Nat) ∈ [3, 1, 2].map (natCfg (some 1)).ref_key_fn)
      ∧ (3 : Nat) ∈ [3, 1, 2].map (natCfg (some 1)).ref_key_fn) := by
  decide

/-- Claim C5 (amended): if some driving item's key never appears in the
finite reference sequence under ref_key_fn, the pass cannot complete
normally — its error is some error, though a duplicate-reference-key error
may preempt the unmatched-key one.  Whenever the pass does fail with the
unmatched-key error identifying a driving item d, that failure happens only
after every remaining reference item has been consumed (the unconsumed
remainder is empty), d is a driving item — the first one left unmatched,
which under bounded capacity may be an earlier item whose key was evicted
rather than the one whose key is absent from R — and exactly the driving
items before d produced outputs, with no further outputs after the error. -/
theorem c5_unmatched_key_failure :
    (∀ (α β κ γ : Type) [DecidableEq κ] (cfg : ZipCfg α β κ γ)
        (D : List α) (R : List β),
      (∃ d ∈ D, cfg.key_fn d ∉ R.map cfg.ref_key_fn) →
      ((zipPass cfg D R).error).isSome)
    ∧ (∀ (α β κ γ : Type) [DecidableEq κ] (cfg : ZipCfg α β κ γ)
        (D : List α) (R : List β) (d : α),
      (zipPass cfg D R).error = some (ZipError.unmatchedKey d) →
      (zipPass cfg D R).refLeft = []
      ∧ ∃ pre post, D = pre ++ d :: post
          ∧ (zipPass cfg D R).outputs.length = pre.length) := by
  constructor
  · intro α β κ γ _ cfg D R hd
    exact zipGo_absent_key_err D [] R true initZipStats [] [] (by simp)
      (fun r hr => List.mem_map_of_mem _ hr) hd
  · intro α β κ γ _ cfg D R d h
    obtain ⟨h1, pre, post, h2, h3⟩ := zipGo_err_unmatched D [] R true
      initZipStats [] [] h
    exact ⟨h1, pre, post, h2, by simpa using h3⟩

/-- Witness for C5 applying both parts at concrete runs. -/
theorem c5_unmatched_key_failure_witness :
    ((zipPass (natCfg none) [9] [0, 0]).error).isSome
    ∧ ((zipPass (natCfg none) [5, 9] [5]).refLeft = []
      ∧ ∃ pre post, ([5, 9] : List Nat) = pre ++ 9 :: post
          ∧ (zipPass (natCfg none) [5, 9] [5]).outputs.length = pre.length) := by
  constructor
  · exact c5_unmatched_key_failure.1 Nat Nat Nat (Nat × Nat) (natCfg none)
      [9] [0, 0] ⟨9, by decide, by decide⟩
  · exact c5_unmatched_key_failure.2 Nat Nat Nat (Nat × Nat) (natCfg none)
      [5, 9] [5] 9 (by decide)

/-- Claim C6: within one pass of the streaming zipper the overflow notice
fires at most once, fires exactly once precisely when at least one eviction
occurs, fires at the first eviction (eviction ordinal 0) with later
evictions silent, and in unbounded mode (buffer_size None) there is never
an eviction nor a notice.  Concretely, with capacity 1 the run over D = [3],
R = [0, 1, 2, 3] evicts twice but warns once, at the first eviction. -/
theorem c6_overflow_notice_once :
    (∀ (α β κ γ : Type) [DecidableEq κ] (cfg : ZipCfg α β κ γ)
        (D : List α) (R : List β),
      (zipPass cfg D R).stats.warnCount ≤ 1
      ∧ ((zipPass cfg D R).stats.warnCount = 1
          ↔ 1 ≤ (zipPass cfg D R).stats.evictCount)
      ∧ ((zipPass cfg D R).stats.warnCount = 1
          → (zipPass cfg D R).stats.warnEvictIdx = some 0)
      ∧ (cfg.buffer_size = none
          → (zipPass cfg D R).stats.warnCount = 0
            ∧ (zipPass cfg D R).stats.evictCount = 0))
    ∧ ((zipPass (natCfg (some 1)) [3] [0, 1, 2, 3]).stats.warnCount = 1
      ∧ (zipPass (natCfg (some 1)) [3] [0, 1, 2, 3]).stats.evictCount = 2
      ∧ (zipPass (natCfg (some 1)) [3] [0, 1, 2, 3]).stats.warnEvictIdx
          = some 0) := by
  refine ⟨?_, by decide, by decide, by decide⟩
  intro α β κ γ _ cfg D R
  obtain ⟨fl, hinv⟩ := zipGo_warnInv cfg D [] R true initZipStats
    [] [] ⟨fun _ => ⟨rfl, rfl, rfl⟩, fun hc => Bool.noConfusion hc⟩
  have hub : cfg.buffer_size = none
      → (zipPass cfg D R).stats.warnCount = 0
        ∧ (zipPass cfg D R).stats.evictCount = 0 := by
    intro hbs
    exact zipGo_unbounded_stats hbs D ([] : List (κ × β)) R true initZipStats
      [] []
  cases fl with
  | true =>
    obtain ⟨w0, e0, i0⟩ := hinv.1 rfl
    have w0p : (zipPass cfg D R).stats.warnCount = 0 := w0
    have e0p : (zipPass cfg D R).stats.evictCount = 0 := e0
    refine ⟨by omega, ?_, ?_, hub⟩
    · rw [w0p, e0p]
      simp
    · intro hc
      rw [w0p] at hc
      cases hc
  | false =>
    obtain ⟨w1, e1, i1⟩ := hinv.2 rfl
    have w1p : (zipPass cfg D R).stats.warnCount = 1 := w1
    have e1p : 1 ≤ (zipPass cfg D R).stats.evictCount := e1
    have i1p : (zipPass cfg D R).stats.warnEvictIdx = some 0 := i1
    refine ⟨le_of_eq w1p, ?_, fun _ => i1p, hub⟩
    rw [w1p]
    simp [e1p]

/-- Witness for C6 applying the unbounded part at a concrete run. -/
theorem c6_overflow_notice_once_witness :
    (zipPass (natCfg none) [1] [1]).stats.warnCount = 0
    ∧ (zipPass (natCfg none) [1] [1]).stats.evictCount = 0 :=
  (c6_overflow_notice_once.1 Nat Nat Nat (Nat × Nat) (natCfg none)
    [1] [1]).2.2.2 rfl

/-- Claim C7: the lookup key-join yields one output per driving item, in
driving order, each equal to merge_fn applied to the item and the map's
value at its key, whenever every driving key is present; and for a driving
sequence whose first absent-key item is d, the pass fails with the
key-not-found error reporting d together with its computed key — the
translation of the collection's raw not-found signal — having produced
exactly the outputs of the items before d. -/
theorem c7_lookup_join_correct :
    (∀ (α δ κ γ : Type) (key_fn : α → κ) (merge_fn : α → δ → γ)
        (m : κ → Option δ) (D : List α),
      (∀ d ∈ D, (m (key_fn d)).isSome) →
      (mapZipGo key_fn merge_fn m D).error = none
      ∧ (mapZipGo key_fn merge_fn m D).outputs.length = D.length
      ∧ List.Forall₂ (fun d out => ∃ v, m (key_fn d) = some v
          ∧ out = merge_fn d v) D (mapZipGo key_fn merge_fn m D).outputs)
    ∧ (∀ (α δ κ γ : Type) (key_fn : α → κ) (merge_fn : α → δ → γ)
        (m : κ → Option δ) (pre : List α) (d : α) (post : List α),
      (∀ x ∈ pre, (m (key_fn x)).isSome) → m (key_fn d) = none →
      (mapZipGo key_fn merge_fn m (pre ++ d :: post)).error
          = some (MapZipError.keyNotFound d (key_fn d))
      ∧ (mapZipGo key_fn merge_fn m (pre ++ d :: post)).outputs.length
          = pre.length) := by
  constructor
  · intro α δ κ γ kf mf m D h
    obtain ⟨h1, h2⟩ := mapZipGo_all_present kf mf m D h
    exact ⟨h1, (List.Forall₂.length_eq h2).symm, h2⟩
  · intro α δ κ γ kf mf m pre d post h1 h2
    exact mapZipGo_first_absent kf mf m pre d post h1 h2

/-- The keyed collection of the spec's concrete lookup scenario, with keys
0..3 in place of a..d. -/
def lookupScenarioMap : Nat → Option Nat :=
  fun k => if k < 4 then some (100 * (k + 1)) else none

/-- Witness for C7 at the spec's concrete lookup scenario. -/
theorem c7_lookup_join_correct_witness :
    (mapZipGo Prod.fst (fun t v => (t.1, t.2 + v)) lookupScenarioMap
      [(0, 1), (1, 2), (2, 3)]).error = none
    ∧ (mapZipGo Prod.fst (fun t v => (t.1, t.2 + v)) lookupScenarioMap
      [(0, 1), (1, 2), (2, 3)]).outputs.length
        = ([(0, 1), (1, 2), (2, 3)] : List (Nat × Nat)).length := by
  obtain ⟨h1, h2, h3⟩ := c7_lookup_join_correct.1 (Nat × Nat) Nat Nat
    (Nat × Nat) Prod.fst (fun t v => (t.1, t.2 + v)) lookupScenarioMap
    [(0, 1), (1, 2), (2, 3)] (by decide)
  exact ⟨h1, h2⟩

/-- Claim C8: two independent passes of the same streaming zipper
configuration over fresh copies of the same driving and reference sequences
yield identical results.  In the embedding each pass builds its state
afresh exactly as source lines 81-83 do (empty buffer, new reference
iterator over the full sequence, warn_once_flag reset to True), so a pass
is a pure function of the configuration and the two sequences: equal
configurations and equal fresh copies give equal runs, outputs included,
with no state carried from one pass to the next. -/
theorem c8_pass_independence :
    ∀ (α β κ γ : Type) [DecidableEq κ] (cfg cfg2 : ZipCfg α β κ γ)
      (D D2 : List α) (R R2 : List β),
      cfg = cfg2 → D = D2 → R = R2 →
      zipPass cfg D R = zipPass cfg2 D2 R2
      ∧ (zipPass cfg D R).outputs = (zipPass cfg2 D2 R2).outputs := by
  intro α β κ γ _ cfg cfg2 D D2 R R2 h1 h2 h3
  subst h1
  subst h2
  subst h3
  exact ⟨rfl, rfl⟩

/-- Witness for C8 at a concrete configuration and sequences. -/
theorem c8_pass_independence_witness :
    zipPass (natCfg (some 10000)) [1, 2] [2, 1]
      = zipPass (natCfg (some 10000)) [1, 2] [2, 1] :=
  (c8_pass_independence Nat Nat Nat (Nat × Nat) (natCfg (some 10000))
    (natCfg (some 10000)) [1, 2] [1, 2] [2, 1] [2, 1] rfl rfl rfl).1

/-- Claim C9: the streaming zipper's length query reports exactly the
driving sequence's reported length, raising when the driving sequence
reports none (nothing is materialized: the query never touches the
sequences themselves); the lookup key-join's length query returns the
driving sequence's reported length and caches it on first computation
(cache changes from -1 to the value), after which the cached value is
returned whatever the driving side would now report, and a failed first
query leaves the cache unset. -/
theorem c9_length_reporting :
    (∀ n : Nat, iterKeyZipperLen (some n) = Except.ok n)
    ∧ iterKeyZipperLen none = Except.error ()
    ∧ (∀ n : Nat, mapKeyZipperLen mapKeyZipperInitLength (some n)
        = Except.ok ((n : Int), (n : Int)))
    ∧ (∀ (n : Nat) (srcLen2 : Option Nat),
        mapKeyZipperLen ((n : Int)) srcLen2 = Except.ok ((n : Int), (n : Int)))
    ∧ mapKeyZipperLen mapKeyZipperInitLength none = Except.error () := by
  refine ⟨fun n => rfl, rfl, fun n => rfl, ?_, rfl⟩
  intro n srcLen2
  rw [mapKeyZipperLen.eq_def, if_neg (by omega)]

/-- Claim C10: the buffer_size parameter of the streaming zipper's
constructor defaults to the bounded value 10000 — not to None, so unbounded
mode requires passing None explicitly — and construction validates it:
None is accepted as unbounded, any non-None value at most 0 raises the
construction-time error, and any positive value is stored. -/
theorem c10_buffer_size_default_and_validation :
    defaultBufferSize = some 10000
    ∧ defaultBufferSize ≠ none
    ∧ checkBufferSize defaultBufferSize = Except.ok (some 10000)
    ∧ checkBufferSize none = Except.ok none
    ∧ (∀ b : Int, b ≤ 0
        → checkBufferSize (some b) = Except.error InitError.invalidBufferSize)
    ∧ (∀ b : Int, 0 < b → checkBufferSize (some b) = Except.ok (some b)) := by
  refine ⟨rfl, by simp [defaultBufferSize], rfl, rfl, ?_, ?_⟩
  · intro b hb
    simp only [checkBufferSize]
    rw [if_pos hb]
  · intro b hb
    simp only [checkBufferSize]
    rw [if_neg (by omega)]

/-- Witness for C10 at concrete invalid buffer sizes. -/
theorem c10_buffer_size_witness :
    checkBufferSize (some 0) = Except.error InitError.invalidBufferSize
    ∧ checkBufferSize (some (-3)) = Except.error InitError.invalidBufferSize :=
  ⟨c10_buffer_size_default_and_validation.2.2.2.2.1 0 (by decide),
    c10_buffer_size_default_and_validation.2.2.2.2.1 (-3) (by decide)⟩
